import Mathlib

/-!
Verification of the pretix cross-selling / discount engine specification.

The engine computes, for a cart of priced line items and a set of discount
rules, (a) the discounted price of every line and (b) a list of
cross-selling recommendations.  The repository ships the behavioural test
suite (`src/src/tests/base/test_cross_selling.py`); the engine itself
(`pretix.base.services.cross_selling` and the discount service it drives)
is not part of the provided sources, so the definitions below are modelled
from the specification and checked for consistency against the concrete
expectations recorded in the test suite.

All monetary amounts carry two decimal places in the source (`Decimal`
with `decimal_places=2`), so they are embedded exactly as integers in the
currency's minor unit ("cents"): the price 42.00 is the integer 4200.
Discount percentages likewise carry two decimal places and are embedded
exactly as integer hundredths of a percent: 50% is the integer 5000.
The lemma `discountedPrice_eq_roundToCents` proves that the resulting
integer arithmetic agrees with the specification's decimal formula
`round(price × (1 − percent/100), 2)` under half-up rounding.
-/

namespace CrossSelling

/-- Modelled from the spec: `subevent_mode` enum {MIXED, SAME, DISTINCT}
describing how line items across sub-events are pooled (spec §3). -/
inductive SubeventMode where
  | mixed
  | same
  | distinct
deriving DecidableEq, Repr

/-- Modelled from the spec: one cart line item (spec §3): product reference,
optional variation and sub-event references, pre-discount unit price (in
minor units), add-on flag, parent line reference, voucher-discounted flag.
Lines are read-only inputs. -/
structure Line where
  product : Nat
  variation : Option Nat := none
  subevent : Option Nat := none
  price : Int
  is_addon : Bool := false
  addon_to : Option Nat := none
  voucher_discounted : Bool := false
deriving DecidableEq, Repr

/-- Modelled from the spec: the immutable discount rule value (spec §3).
`condition_min_count` is carried as an integer so that the negative
thresholds rejected by validation (spec §7) are representable;
`condition_min_value` is in minor units; `benefit_discount_matching_percent`
is in hundredths of a percent; `benefit_only_apply_to_cheapest_n_matches =
none` is the "unlimited" cap. -/
structure Discount where
  subevent_mode : SubeventMode := .mixed
  condition_all_products : Bool := true
  condition_limit_products : List Nat := []
  condition_apply_to_addons : Bool := true
  condition_ignore_voucher_discounted : Bool := false
  condition_min_count : Int := 0
  condition_min_value : Int := 0
  benefit_same_products : Bool := true
  benefit_limit_products : List Nat := []
  benefit_discount_matching_percent : Int := 0
  benefit_only_apply_to_cheapest_n_matches : Option Int := none
  benefit_apply_to_addons : Bool := true
  benefit_ignore_voucher_discounted : Bool := false
deriving DecidableEq, Repr

/-- Modelled from the spec: category metadata needed to group
recommendations (spec §6) — product catalog giving each product reference
its unit price (in minor units) and its category. -/
structure Catalog where
  priceOf : Nat → Int
  categoryOf : Nat → Nat

/-- Modelled from the spec: one recommendation record (spec §3):
category, candidate product, original price, projected discounted price
(both in minor units), maximum beneficial quantity. -/
structure Recommendation where
  category : Nat
  product : Nat
  original_price : Int
  discounted_price : Int
  max_count : Nat
deriving DecidableEq, Repr

/-- Modelled from the spec: standard half-up rounding of a decimal amount
`x` (in currency main units) to the currency's minor-unit precision
(spec §4.3), expressed in minor units: `⌊x·100 + 1/2⌋`. -/
def roundToCents (x : ℚ) : ℤ := ⌊x * 100 + 1 / 2⌋

/-- Modelled from the spec: the discounted price (in minor units) of a line
of price `price` minor units under a discount of `percent` hundredths of a
percent: `price × (1 − percent/100)` rounded half-up to the minor unit
(spec §4.3), computed exactly in integer arithmetic. -/
def discountedPrice (percent price : Int) : Int :=
  (2 * (price * (10000 - percent)) + 10000) / 20000

/-- The integer minor-unit computation of `discountedPrice` agrees with
the specification's decimal formula `round(price × (1 − percent/100), 2)`
under half-up rounding (spec §4.3, spec §8). -/
theorem discountedPrice_eq_roundToCents (percent price : Int) :
    discountedPrice percent price =
      roundToCents ((price : ℚ) / 100 * (1 - (percent : ℚ) / 100 / 100)) := by
  unfold discountedPrice roundToCents
  have h : (price : ℚ) / 100 * (1 - (percent : ℚ) / 100 / 100) * 100 + 1 / 2 =
      ((2 * (price * (10000 - percent)) + 10000 : ℤ) : ℚ) / ((20000 : ℕ) : ℚ) := by
    push_cast
    ring
  rw [h, Rat.floor_intCast_div_natCast]
  norm_num

/-- Modelled from the spec: rule validation (spec §7 and the §3 invariant):
a rule is rejected when both the count and the value threshold are set, or
when a threshold is negative; a rule with an explicit benefit scope must
name at least one product (spec §9, tagged-variant pool scope). -/
def ruleValid (d : Discount) : Bool :=
  decide (0 ≤ d.condition_min_count) &&
  decide (0 ≤ d.condition_min_value) &&
  !(decide (0 < d.condition_min_count) && decide (0 < d.condition_min_value)) &&
  (d.benefit_same_products || !d.benefit_limit_products.isEmpty)

/-- Modelled from the spec: scope resolution of the pool filter (spec §4.1):
all products, or membership in the explicit product set. -/
def inScope (allProducts : Bool) (limit : List Nat) (l : Line) : Bool :=
  allProducts || limit.contains l.product

/-- Modelled from the spec: the pool filter (spec §4.1) over index-tagged
cart lines: keeps lines in scope, drops add-ons when `includeAddons=false`
and voucher-discounted lines when `includeVoucherDiscounted=false`. -/
def poolFilter (lines : List (Nat × Line)) (allProducts : Bool)
    (limit : List Nat) (includeAddons includeVoucherDiscounted : Bool) :
    List (Nat × Line) :=
  lines.filter fun il =>
    inScope allProducts limit il.2 &&
    (includeAddons || !il.2.is_addon) &&
    (includeVoucherDiscounted || !il.2.voucher_discounted)

/-- Modelled from the spec: the condition matcher (spec §4.2).
Count-based: `floor(pool size / minCount)` under MIXED, summed per
sub-event partition under SAME, and `floor(distinct sub-events / minCount)`
under DISTINCT.  Value-based: a single group once the summed pool price
reaches the threshold (single-satisfaction policy, spec §9). -/
def matchGroups (pool : List (Nat × Line)) (minCount : Int) (minValue : Int)
    (mode : SubeventMode) : Nat :=
  if 0 < minCount then
    let k := minCount.toNat
    match mode with
    | .mixed => pool.length / k
    | .same =>
        (((pool.map fun il => il.2.subevent)).dedup.map fun s =>
          (pool.filter fun il => il.2.subevent == s).length / k).sum
    | .distinct => ((pool.map fun il => il.2.subevent)).dedup.length / k
  else if 0 < minValue then
    if minValue ≤ ((pool.map fun il => il.2.price)).sum then 1 else 0
  else 0

/-- Modelled from the spec: cheapest-first ordering of the benefit pool
(spec §4.3): ascending by pre-discount price, ties broken by the stable,
deterministic secondary key pinned by the repository's behavioural tests
(`test_five_tickets_one_free`): among equal-priced lines the later cart
position is claimed first. -/
def cheaperFirst (a b : Nat × Line) : Prop :=
  a.2.price < b.2.price ∨ (a.2.price = b.2.price ∧ b.1 ≤ a.1)

instance : DecidableRel cheaperFirst := fun a b => by
  unfold cheaperFirst; infer_instance

/-- Modelled from the spec: the benefit pool sorted cheapest-first
(spec §4.3). -/
def sortPool (pool : List (Nat × Line)) : List (Nat × Line) :=
  pool.insertionSort cheaperFirst

/-- Modelled from the spec: number of lines the allocator claims
(spec §4.3): up to `capPerGroup` lines per satisfied group, or all
remaining eligible lines when the cap is unlimited (and the condition is
satisfied at least once). -/
def claimCount (groups : Nat) (cap : Option Int) (poolSize : Nat) : Nat :=
  match cap with
  | some c => min (groups * c.toNat) poolSize
  | none => if groups = 0 then 0 else poolSize

/-- Modelled from the spec: the allocation shortfall (spec §4.3):
`groups × capPerGroup − claimed`, floored at 0; treated as 0 when the cap
is unlimited. -/
def shortfallOf (groups : Nat) (cap : Option Int) (claimed : Nat) : Nat :=
  match cap with
  | some c => groups * c.toNat - claimed
  | none => 0

/-- Modelled from the spec: the condition pool of a rule (spec §4.1/§4.2). -/
def conditionPool (d : Discount) (lines : List (Nat × Line)) :
    List (Nat × Line) :=
  poolFilter lines d.condition_all_products d.condition_limit_products
    d.condition_apply_to_addons (!d.condition_ignore_voucher_discounted)

/-- Modelled from the spec: whether the benefit scope is "all products"
(spec §3: benefit pool = condition pool when `benefit_same_products`). -/
def benefitScopeAll (d : Discount) : Bool :=
  d.benefit_same_products && d.condition_all_products

/-- Modelled from the spec: the explicit product list of the benefit scope
(spec §3). -/
def benefitScopeList (d : Discount) : List Nat :=
  if d.benefit_same_products then d.condition_limit_products
  else d.benefit_limit_products

/-- Modelled from the spec: the benefit pool of a rule (spec §4.1/§4.3):
scope-filtered lines, minus lines already claimed by earlier rules in the
same evaluation. -/
def benefitPool (d : Discount) (claimed : List Nat)
    (lines : List (Nat × Line)) : List (Nat × Line) :=
  (poolFilter lines (benefitScopeAll d) (benefitScopeList d)
      d.benefit_apply_to_addons (!d.benefit_ignore_voucher_discounted)).filter
    fun il => !claimed.contains il.1

/-- Modelled from the spec: the satisfied group count of one rule
(spec §4.2). -/
def ruleGroups (d : Discount) (lines : List (Nat × Line)) : Nat :=
  matchGroups (conditionPool d lines) d.condition_min_count
    d.condition_min_value d.subevent_mode

/-- Modelled from the spec: the indices the benefit allocator claims for
one rule (spec §4.3): the cheapest eligible lines, up to the allocation
target. -/
def ruleClaims (d : Discount) (claimed : List Nat)
    (lines : List (Nat × Line)) : List Nat :=
  let pool := benefitPool d claimed lines
  ((sortPool pool).take
      (claimCount (ruleGroups d lines)
        d.benefit_only_apply_to_cheapest_n_matches pool.length)).map
    fun il => il.1

/-- Modelled from the spec: the shortfall of one rule evaluation
(spec §4.3). -/
def ruleShortfall (d : Discount) (claimed : List Nat)
    (lines : List (Nat × Line)) : Nat :=
  shortfallOf (ruleGroups d lines) d.benefit_only_apply_to_cheapest_n_matches
    (ruleClaims d claimed lines).length

/-- Modelled from the spec: the recommendation builder (spec §4.4): no
entries when `benefit_same_products` or when the shortfall is zero;
otherwise one entry per distinct product of the benefit scope, carrying
the product's category, original unit price, projected post-discount unit
price, and maximum beneficial quantity = shortfall. -/
def ruleRecs (cat : Catalog) (d : Discount) (sf : Nat) :
    List Recommendation :=
  if d.benefit_same_products || sf = 0 then []
  else
    d.benefit_limit_products.dedup.map fun p =>
      { category := cat.categoryOf p
        product := p
        original_price := cat.priceOf p
        discounted_price :=
          discountedPrice d.benefit_discount_matching_percent (cat.priceOf p)
        max_count := sf }

/-- Modelled from the spec: the rule loop of the discount engine
(spec §4.5/§9): rules run in declaration order, an explicit claim-tracking
list is threaded from rule to rule, and each rule contributes its claimed
(index, percent) pairs and its recommendations. -/
def runRules (cat : Catalog) (lines : List (Nat × Line)) :
    List Discount → List Nat → List (Nat × Int) × List Recommendation
  | [], _ => ([], [])
  | d :: ds, claimed =>
      let cs := ruleClaims d claimed lines
      let sf := ruleShortfall d claimed lines
      let rest := runRules cat lines ds (claimed ++ cs)
      (cs.map (fun i => (i, d.benefit_discount_matching_percent)) ++ rest.1,
        ruleRecs cat d sf ++ rest.2)

/-- Modelled from the spec: the per-line output price (spec §4.3/§4.5):
the discounted price when the line was allocated, the unchanged original
price otherwise. -/
def applyClaims (claims : List (Nat × Int)) (i : Nat) (l : Line) : Int :=
  match claims.lookup i with
  | some pct => discountedPrice pct l.price
  | none => l.price

/-- Index-tagged view of the cart lines, aligned with cart positions. -/
def indexed (lines : List Line) : List (Nat × Line) := lines.enum

/-- Modelled from the spec: the discount engine entry point (spec §4.5/§6):
validates all rules first (fail closed, spec §7), then runs every rule
against the cart and returns the positionally aligned discounted price
array together with the aggregated recommendation list. -/
def evaluate (cat : Catalog) (rules : List Discount) (lines : List Line) :
    Except String (List Int × List Recommendation) :=
  if rules.all ruleValid then
    let il := indexed lines
    let res := runRules cat il rules []
    .ok (il.map (fun p => applyClaims res.1 p.1 p.2), res.2)
  else .error "invalid discount rule configuration"

/-- Decidable equality of engine results, so that concrete evaluations can
be checked by `decide`. -/
instance {ε α : Type} [DecidableEq ε] [DecidableEq α] :
    DecidableEq (Except ε α)
  | .error a, .error b =>
      if h : a = b then .isTrue (by rw [h])
      else .isFalse (by intro he; cases he; exact h rfl)
  | .error _, .ok _ => .isFalse fun h => Except.noConfusion h
  | .ok _, .error _ => .isFalse fun h => Except.noConfusion h
  | .ok a, .ok b =>
      if h : a = b then .isTrue (by rw [h])
      else .isFalse (by intro he; cases he; exact h rfl)

/-! Concrete fixtures mirroring the repository's behavioural tests:
product 0 is the Regular Ticket (42.00 = 4200 minor units), product 1 the
Reduced Ticket (23.00 = 2300 minor units), both in category 0
("Tickets"). -/

/-- Catalog of `test_2f1r_discount_cross_selling`. -/
def ticketsCatalog : Catalog :=
  ⟨fun p => if p = 0 then 4200 else 2300, fun _ => 0⟩

/-- A Regular Ticket cart line (42.00). -/
def regularTicket : Line := { product := 0, price := 4200 }

/-- A Reduced Ticket cart line (23.00). -/
def reducedTicket : Line := { product := 1, price := 2300 }

/-- The rule "For every 2 of Regular Ticket, get 50% discount on 1 of
Reduced Ticket." of `test_2f1r_discount_cross_selling`. -/
def everyTwoRegularHalfOffReduced : Discount :=
  { condition_all_products := false
    condition_limit_products := [0]
    condition_min_count := 2
    benefit_same_products := false
    benefit_limit_products := [1]
    benefit_discount_matching_percent := 5000
    benefit_only_apply_to_cheapest_n_matches := some 1 }

/-- The rule "For every 5 of Regular Ticket, get 100% discount on 1 of
them." of `test_five_tickets_one_free`. -/
def everyFiveRegularOneFree : Discount :=
  { condition_all_products := false
    condition_limit_products := [0]
    condition_min_count := 5
    benefit_same_products := true
    benefit_discount_matching_percent := 10000
    benefit_only_apply_to_cheapest_n_matches := some 1 }

/-- Claim C4: for the rule "every 2 of Regular Ticket → 50% off 1 Reduced
Ticket" and a cart of exactly 2 Regular Ticket lines at 42.00 and no
Reduced Ticket, evaluation returns both cart line prices unchanged at
42.00 and exactly one recommendation: Reduced Ticket, original price
23.00, projected discounted price 11.50, maximum quantity 1 (amounts in
minor units: 4200, 2300, 1150). -/
theorem two_regular_no_reduced_scenario :
    evaluate ticketsCatalog [everyTwoRegularHalfOffReduced]
      [regularTicket, regularTicket] =
    .ok ([4200, 4200],
      [{ category := 0, product := 1, original_price := 2300,
         discounted_price := 1150, max_count := 1 }]) := by decide

/-- Claim C2: for a rule with `condition_min_count = k > 0` over a MIXED
condition pool of size `n`, the satisfied group count is `floor(n/k)`,
monotonically non-decreasing in the pool size. -/
theorem groups_floor_div_and_mono (pool pool' : List (Nat × Line))
    (k v : Int) (hk : 0 < k) :
    matchGroups pool k v .mixed = pool.length / k.toNat ∧
    (pool.length ≤ pool'.length →
      matchGroups pool k v .mixed ≤ matchGroups pool' k v .mixed) := by
  constructor
  · simp [matchGroups, if_pos hk]
  · intro h
    simp only [matchGroups, if_pos hk]
    exact Nat.div_le_div_right h

/-- Witness for C2 at the spec's example: `k = 2`, pools of size 2 and 6
yield 1 and 3 groups and the count is monotone between them. -/
theorem groups_floor_div_and_mono_witness :
    (0 : Int) < 2 ∧
    (matchGroups (indexed [regularTicket, regularTicket]) 2 0 .mixed =
        (indexed [regularTicket, regularTicket]).length / (2 : Int).toNat ∧
      ((indexed [regularTicket, regularTicket]).length ≤
          (indexed (List.replicate 6 regularTicket)).length →
        matchGroups (indexed [regularTicket, regularTicket]) 2 0 .mixed ≤
          matchGroups (indexed (List.replicate 6 regularTicket)) 2 0
            .mixed)) :=
  ⟨by decide,
    groups_floor_div_and_mono (indexed [regularTicket, regularTicket])
      (indexed (List.replicate 6 regularTicket)) 2 0 (by decide)⟩

/-- The recommendation builder emits nothing for a zero shortfall. -/
theorem ruleRecs_zero (cat : Catalog) (d : Discount) :
    ruleRecs cat d 0 = [] := by
  simp [ruleRecs]

/-- A rule with an unlimited benefit cap always has shortfall 0. -/
theorem ruleShortfall_of_unlimited (d : Discount) (claimed : List Nat)
    (lines : List (Nat × Line))
    (h : d.benefit_only_apply_to_cheapest_n_matches = none) :
    ruleShortfall d claimed lines = 0 := by
  simp [ruleShortfall, shortfallOf, h]

/-- Claim C6: when every rule has
`benefit_only_apply_to_cheapest_n_matches = unlimited`, the rule loop
emits no recommendation at all, however many groups are satisfied: the
shortfall is treated as 0 since there is no fixed allocation target. -/
theorem unlimited_cap_no_recommendations (cat : Catalog)
    (lines : List (Nat × Line)) (rules : List Discount) (claimed : List Nat)
    (h : ∀ d ∈ rules, d.benefit_only_apply_to_cheapest_n_matches = none) :
    (runRules cat lines rules claimed).2 = [] := by
  induction rules generalizing claimed with
  | nil => rfl
  | cons d ds ih =>
      have h1 : d.benefit_only_apply_to_cheapest_n_matches = none :=
        h d (List.mem_cons_self d ds)
      simp only [runRules, ruleShortfall_of_unlimited d claimed lines h1,
        ruleRecs_zero, List.nil_append]
      exact ih _ fun x hx => h x (List.mem_cons_of_mem d hx)

/-- Witness for C6: the "every 2 Regular" rule made unlimited, over a cart
of four Regular Tickets, emits no recommendation. -/
theorem unlimited_cap_no_recommendations_witness :
    (∀ d ∈ [{ everyTwoRegularHalfOffReduced with
        benefit_only_apply_to_cheapest_n_matches := none }],
      d.benefit_only_apply_to_cheapest_n_matches = none) ∧
    (runRules ticketsCatalog (indexed (List.replicate 4 regularTicket))
      [{ everyTwoRegularHalfOffReduced with
          benefit_only_apply_to_cheapest_n_matches := none }] []).2 = [] :=
  ⟨by decide,
    unlimited_cap_no_recommendations ticketsCatalog
      (indexed (List.replicate 4 regularTicket))
      [{ everyTwoRegularHalfOffReduced with
          benefit_only_apply_to_cheapest_n_matches := none }] []
      (by decide)⟩

/-- Claim C10: recommendations only come from already-satisfied groups'
unfilled benefit slots: a rule whose condition is not satisfied even once
(`groups = 0`) contributes an empty recommendation list. -/
theorem no_groups_no_recommendation (cat : Catalog) (d : Discount)
    (claimed : List Nat) (lines : List (Nat × Line))
    (h : ruleGroups d lines = 0) :
    ruleRecs cat d (ruleShortfall d claimed lines) = [] := by
  have hsf : ruleShortfall d claimed lines = 0 := by
    unfold ruleShortfall shortfallOf
    rw [h]
    cases d.benefit_only_apply_to_cheapest_n_matches <;> simp
  rw [hsf, ruleRecs_zero]

/-- Witness for C10 at the repository's scenario: 4 Regular Tickets under
the "every 5 → 1 free" rule satisfy no group and yield no recommendation
even though one more ticket would unlock a discount. -/
theorem no_groups_no_recommendation_witness :
    ruleGroups everyFiveRegularOneFree
      (indexed (List.replicate 4 regularTicket)) = 0 ∧
    ruleRecs ticketsCatalog everyFiveRegularOneFree
      (ruleShortfall everyFiveRegularOneFree []
        (indexed (List.replicate 4 regularTicket))) = [] :=
  ⟨by decide,
    no_groups_no_recommendation ticketsCatalog everyFiveRegularOneFree []
      (indexed (List.replicate 4 regularTicket)) (by decide)⟩

end CrossSelling

namespace CrossSelling

/-- Claim C1: for a rule evaluation with a finite per-group cap `c ≥ 0`,
the shortfall equals `max(0, groups × capPerGroup − claimed lines)`; the
rule emits recommendations iff the shortfall is positive and
`benefit_same_products = false`; and every emitted recommendation's
maximum beneficial quantity equals the shortfall. -/
theorem shortfall_formula_and_recommendations (cat : Catalog) (d : Discount)
    (claimed : List Nat) (lines : List (Nat × Line)) (c : Int)
    (hv : ruleValid d = true) (hc : 0 ≤ c)
    (hcap : d.benefit_only_apply_to_cheapest_n_matches = some c) :
    ((ruleShortfall d claimed lines : ℤ) =
      max 0 ((ruleGroups d lines : ℤ) * c -
        ((ruleClaims d claimed lines).length : ℤ))) ∧
    (ruleRecs cat d (ruleShortfall d claimed lines) ≠ [] ↔
      0 < ruleShortfall d claimed lines ∧
        d.benefit_same_products = false) ∧
    (∀ r ∈ ruleRecs cat d (ruleShortfall d claimed lines),
      r.max_count = ruleShortfall d claimed lines) := by
  have hs : ruleShortfall d claimed lines =
      ruleGroups d lines * c.toNat - (ruleClaims d claimed lines).length := by
    simp [ruleShortfall, shortfallOf, hcap]
  refine ⟨?_, ?_, ?_⟩
  · have hct : ((c.toNat : ℤ)) = c := Int.toNat_of_nonneg hc
    have key : ((ruleGroups d lines : ℤ)) * c =
        ((ruleGroups d lines * c.toNat : ℕ) : ℤ) := by
      push_cast
      rw [hct]
    rw [hs, key]
    omega
  · by_cases hsame : d.benefit_same_products = true
    · simp [ruleRecs, hsame]
    · have hsame' : d.benefit_same_products = false := by
        simpa using hsame
      have hbl : d.benefit_limit_products ≠ [] := by
        simp only [ruleValid, Bool.and_eq_true, Bool.or_eq_true, hsame',
          Bool.not_eq_true', Bool.false_eq_true, false_or] at hv
        intro hnil
        rw [hnil] at hv
        simp at hv
      by_cases hsf : ruleShortfall d claimed lines = 0
      · simp [ruleRecs, hsf, hsame']
      · constructor
        · intro _
          exact ⟨Nat.pos_of_ne_zero hsf, hsame'⟩
        · intro _
          simp only [ruleRecs, hsame', Bool.false_or]
          rw [if_neg (by simpa using hsf)]
          simp [hbl]
  · intro r hr
    simp only [ruleRecs] at hr
    split at hr
    · exact absurd hr (List.not_mem_nil r)
    · obtain ⟨p, _, rfl⟩ := List.mem_map.1 hr
      rfl

/-- Witness for C1 at the repository's scenario of 4 condition units and
1 allocated benefit line under a 2-per-group rule with cap 1: the
shortfall is 1 and the single recommendation carries max quantity 1. -/
theorem shortfall_formula_and_recommendations_witness :
    ruleValid everyTwoRegularHalfOffReduced = true ∧
    ruleShortfall everyTwoRegularHalfOffReduced []
      (indexed [regularTicket, regularTicket, regularTicket, regularTicket,
        reducedTicket]) = 1 ∧
    (((ruleShortfall everyTwoRegularHalfOffReduced []
        (indexed [regularTicket, regularTicket, regularTicket, regularTicket,
          reducedTicket]) : ℤ) =
      max 0 ((ruleGroups everyTwoRegularHalfOffReduced
          (indexed [regularTicket, regularTicket, regularTicket,
            regularTicket, reducedTicket]) : ℤ) * 1 -
        ((ruleClaims everyTwoRegularHalfOffReduced []
          (indexed [regularTicket, regularTicket, regularTicket,
            regularTicket, reducedTicket])).length : ℤ))) ∧
    (ruleRecs ticketsCatalog everyTwoRegularHalfOffReduced
        (ruleShortfall everyTwoRegularHalfOffReduced []
          (indexed [regularTicket, regularTicket, regularTicket,
            regularTicket, reducedTicket])) ≠ [] ↔
      0 < ruleShortfall everyTwoRegularHalfOffReduced []
          (indexed [regularTicket, regularTicket, regularTicket,
            regularTicket, reducedTicket]) ∧
        everyTwoRegularHalfOffReduced.benefit_same_products = false) ∧
    (∀ r ∈ ruleRecs ticketsCatalog everyTwoRegularHalfOffReduced
        (ruleShortfall everyTwoRegularHalfOffReduced []
          (indexed [regularTicket, regularTicket, regularTicket,
            regularTicket, reducedTicket])),
      r.max_count = ruleShortfall everyTwoRegularHalfOffReduced []
        (indexed [regularTicket, regularTicket, regularTicket,
          regularTicket, reducedTicket]))) :=
  ⟨by decide, by decide,
    shortfall_formula_and_recommendations ticketsCatalog
      everyTwoRegularHalfOffReduced []
      (indexed [regularTicket, regularTicket, regularTicket, regularTicket,
        reducedTicket]) 1 (by decide) (by decide) rfl⟩

/-- Claim C7: a malformed rule — both count and value thresholds non-zero,
or a negative threshold — makes the whole evaluation fail closed with a
validation error before any partial price or recommendation result is
surfaced. -/
theorem malformed_rule_fails_closed (cat : Catalog) (rules : List Discount)
    (lines : List Line) (r : Discount) (hr : r ∈ rules)
    (hbad : (0 < r.condition_min_count ∧ 0 < r.condition_min_value) ∨
      r.condition_min_count < 0 ∨ r.condition_min_value < 0) :
    evaluate cat rules lines = .error "invalid discount rule configuration" := by
  have hval : ¬ ruleValid r = true := by
    intro hv
    simp only [ruleValid, Bool.and_eq_true, decide_eq_true_eq,
      Bool.not_eq_true', Bool.and_eq_false_iff, decide_eq_false_iff_not,
      not_lt] at hv
    obtain ⟨⟨⟨h0c, h0v⟩, hnot⟩, -⟩ := hv
    rcases hbad with ⟨h1, h2⟩ | h | h
    · rcases hnot with h | h <;> omega
    · omega
    · omega
  have hall : ¬ rules.all ruleValid = true := fun hallt =>
    hval (List.all_eq_true.1 hallt r hr)
  unfold evaluate
  rw [if_neg hall]

/-- Witness for C7: a rule with both thresholds set is rejected by the
engine on a concrete cart. -/
theorem malformed_rule_fails_closed_witness :
    { everyTwoRegularHalfOffReduced with condition_min_value := 100 } ∈
      [{ everyTwoRegularHalfOffReduced with condition_min_value := 100 }] ∧
    ((0 : Int) <
        ({ everyTwoRegularHalfOffReduced with condition_min_value := 100 }
          : Discount).condition_min_count ∧
      (0 : Int) <
        ({ everyTwoRegularHalfOffReduced with condition_min_value := 100 }
          : Discount).condition_min_value) ∧
    evaluate ticketsCatalog
      [{ everyTwoRegularHalfOffReduced with condition_min_value := 100 }]
      [regularTicket, regularTicket] =
      .error "invalid discount rule configuration" :=
  ⟨by decide, by decide,
    malformed_rule_fails_closed ticketsCatalog
      [{ everyTwoRegularHalfOffReduced with condition_min_value := 100 }]
      [regularTicket, regularTicket]
      { everyTwoRegularHalfOffReduced with condition_min_value := 100 }
      (by decide) (.inl (by decide))⟩

/-- Claim C8: evaluation is pure and deterministic: it is a mathematical
function of the catalog, the rule list and the cart lines alone, so equal
inputs always produce equal (per-line price, recommendations) outputs,
and the input rule and line values are never mutated (they are immutable
values in this embedding, threaded through an explicit claim list). -/
theorem evaluation_deterministic (cat cat' : Catalog)
    (rules rules' : List Discount) (lines lines' : List Line)
    (h1 : cat = cat') (h2 : rules = rules') (h3 : lines = lines') :
    evaluate cat rules lines = evaluate cat' rules' lines' := by
  rw [h1, h2, h3]

/-- Witness for C8 at a concrete cart and rule set. -/
theorem evaluation_deterministic_witness :
    ticketsCatalog = ticketsCatalog ∧
    [everyTwoRegularHalfOffReduced] = [everyTwoRegularHalfOffReduced] ∧
    [regularTicket, regularTicket] = [regularTicket, regularTicket] ∧
    evaluate ticketsCatalog [everyTwoRegularHalfOffReduced]
        [regularTicket, regularTicket] =
      evaluate ticketsCatalog [everyTwoRegularHalfOffReduced]
        [regularTicket, regularTicket] :=
  ⟨rfl, rfl, rfl,
    evaluation_deterministic ticketsCatalog ticketsCatalog
      [everyTwoRegularHalfOffReduced] [everyTwoRegularHalfOffReduced]
      [regularTicket, regularTicket] [regularTicket, regularTicket]
      rfl rfl rfl⟩

end CrossSelling

namespace CrossSelling

/-- Claim C3: in a successful evaluation the output price array is
positionally aligned with the cart (same length); every line allocated by
some rule carries `round(original_price × (1 − percent/100), 2)` under
half-up rounding to the minor unit, and every line not allocated by any
rule retains exactly its original price. -/
theorem allocated_rounded_unallocated_unchanged (cat : Catalog)
    (rules : List Discount) (lines : List Line) (prices : List Int)
    (recs : List Recommendation)
    (h : evaluate cat rules lines = .ok (prices, recs)) :
    prices.length = lines.length ∧
    ∀ i (hi : i < lines.length),
      (∀ pct, (runRules cat (indexed lines) rules []).1.lookup i = some pct →
        prices[i]? = some (discountedPrice pct (lines.get ⟨i, hi⟩).price) ∧
        discountedPrice pct (lines.get ⟨i, hi⟩).price =
          roundToCents (((lines.get ⟨i, hi⟩).price : ℚ) / 100 *
            (1 - (pct : ℚ) / 100 / 100))) ∧
      ((runRules cat (indexed lines) rules []).1.lookup i = none →
        prices[i]? = some (lines.get ⟨i, hi⟩).price) := by
  unfold evaluate at h
  split at h
  case isFalse => exact absurd h (by simp)
  case isTrue =>
    obtain ⟨hp, -⟩ : (indexed lines).map
        (fun p => applyClaims (runRules cat (indexed lines) rules []).1
          p.1 p.2) = prices ∧
        (runRules cat (indexed lines) rules []).2 = recs := by
      injection h with h1
      exact ⟨congrArg Prod.fst h1, congrArg Prod.snd h1⟩
    subst hp
    have hlen : ((indexed lines).map
        (fun p => applyClaims (runRules cat (indexed lines) rules []).1
          p.1 p.2)).length = lines.length := by
      simp [indexed]
    refine ⟨hlen, fun i hi => ?_⟩
    have hip : i < ((indexed lines).map
        (fun p => applyClaims (runRules cat (indexed lines) rules []).1
          p.1 p.2)).length := by rw [hlen]; exact hi
    have hsome : ((indexed lines).map
        (fun p => applyClaims (runRules cat (indexed lines) rules []).1
          p.1 p.2))[i]? = some (applyClaims
            (runRules cat (indexed lines) rules []).1 i
            (lines.get ⟨i, hi⟩)) := by
      rw [List.getElem?_eq_getElem hip]
      simp [indexed, List.getElem_map, List.getElem_enum,
        List.get_eq_getElem]
    constructor
    · intro pct hpct
      refine ⟨?_, discountedPrice_eq_roundToCents pct
        (lines.get ⟨i, hi⟩).price⟩
      rw [hsome]
      unfold applyClaims
      rw [hpct]
    · intro hnone
      rw [hsome]
      unfold applyClaims
      rw [hnone]

/-- Witness for C3 at the repository's cart of 2 Regular plus 1 Reduced
Ticket: position 2 (allocated) is rounded to 11.50, positions 0 and 1
(unallocated) keep 42.00. -/
theorem allocated_rounded_unallocated_unchanged_witness :
    evaluate ticketsCatalog [everyTwoRegularHalfOffReduced]
        [regularTicket, regularTicket, reducedTicket] =
      .ok ([4200, 4200, 1150], []) ∧
    (([4200, 4200, 1150] : List Int).length =
      [regularTicket, regularTicket, reducedTicket].length ∧
    ∀ i (hi : i < [regularTicket, regularTicket, reducedTicket].length),
      (∀ pct, (runRules ticketsCatalog
          (indexed [regularTicket, regularTicket, reducedTicket])
          [everyTwoRegularHalfOffReduced] []).1.lookup i = some pct →
        ([4200, 4200, 1150] : List Int)[i]? =
          some (discountedPrice pct
            ([regularTicket, regularTicket, reducedTicket].get
              ⟨i, hi⟩).price) ∧
        discountedPrice pct
            ([regularTicket, regularTicket, reducedTicket].get
              ⟨i, hi⟩).price =
          roundToCents
            ((([regularTicket, regularTicket, reducedTicket].get
                ⟨i, hi⟩).price : ℚ) / 100 * (1 - (pct : ℚ) / 100 / 100))) ∧
      ((runRules ticketsCatalog
          (indexed [regularTicket, regularTicket, reducedTicket])
          [everyTwoRegularHalfOffReduced] []).1.lookup i = none →
        ([4200, 4200, 1150] : List Int)[i]? =
          some ([regularTicket, regularTicket, reducedTicket].get
            ⟨i, hi⟩).price)) :=
  ⟨by decide,
    allocated_rounded_unallocated_unchanged ticketsCatalog
      [everyTwoRegularHalfOffReduced]
      [regularTicket, regularTicket, reducedTicket]
      [4200, 4200, 1150] [] (by decide)⟩

end CrossSelling

namespace CrossSelling

/-- Every index claimed by a rule belongs to that rule's benefit pool. -/
theorem ruleClaims_mem_benefitPool (d : Discount) (claimed : List Nat)
    (lines : List (Nat × Line)) (i : Nat)
    (hi : i ∈ ruleClaims d claimed lines) :
    ∃ l, (i, l) ∈ benefitPool d claimed lines := by
  simp only [ruleClaims] at hi
  obtain ⟨⟨j, l⟩, hmem, rfl⟩ := List.mem_map.1 hi
  refine ⟨l, ?_⟩
  have h1 : (j, l) ∈ sortPool (benefitPool d claimed lines) :=
    (List.take_sublist _ _).subset hmem
  exact (List.perm_insertionSort cheaperFirst _).subset h1

/-- The benefit pool excludes lines already claimed by earlier rules, so a
rule never claims an index that is already in the claimed set. -/
theorem ruleClaims_disjoint_claimed (d : Discount) (claimed : List Nat)
    (lines : List (Nat × Line)) (i : Nat) (hic : i ∈ claimed) :
    i ∉ ruleClaims d claimed lines := by
  intro hir
  obtain ⟨l, hl⟩ := ruleClaims_mem_benefitPool d claimed lines i hir
  have hcond := (List.mem_filter.1 hl).2
  simp at hcond
  exact hcond hic

/-- The benefit pool is a sublist of the cart lines. -/
theorem benefitPool_sublist (d : Discount) (claimed : List Nat)
    (lines : List (Nat × Line)) :
    (benefitPool d claimed lines).Sublist lines := by
  unfold benefitPool poolFilter
  exact (List.filter_sublist _).trans (List.filter_sublist _)

/-- When the cart's position indices are distinct, the indices claimed by
one rule are distinct. -/
theorem ruleClaims_nodup (d : Discount) (claimed : List Nat)
    (lines : List (Nat × Line))
    (hl : (lines.map Prod.fst).Nodup) :
    (ruleClaims d claimed lines).Nodup := by
  have h1 : ((benefitPool d claimed lines).map Prod.fst).Nodup :=
    hl.sublist ((benefitPool_sublist d claimed lines).map Prod.fst)
  have h2 : ((sortPool (benefitPool d claimed lines)).map Prod.fst).Nodup :=
    ((List.perm_insertionSort cheaperFirst _).map Prod.fst).nodup_iff.2 h1
  have h3 : (((sortPool (benefitPool d claimed lines)).take
      (claimCount (ruleGroups d lines)
        d.benefit_only_apply_to_cheapest_n_matches
        (benefitPool d claimed lines).length)).map Prod.fst).Nodup :=
    h2.sublist ((List.take_sublist _ _).map Prod.fst)
  exact h3

/-- The rule loop, seeded with any claimed set, produces pairwise-distinct
claim indices that avoid the seed. -/
theorem runRules_claims_nodup (cat : Catalog) (lines : List (Nat × Line))
    (hl : (lines.map Prod.fst).Nodup) (rules : List Discount)
    (claimed : List Nat) :
    (((runRules cat lines rules claimed).1.map Prod.fst).Nodup) ∧
    (∀ i ∈ (runRules cat lines rules claimed).1.map Prod.fst,
      i ∉ claimed) := by
  induction rules generalizing claimed with
  | nil => exact ⟨List.nodup_nil, by simp [runRules]⟩
  | cons d ds ih =>
      have hkeys : ((runRules cat lines (d :: ds) claimed).1.map Prod.fst) =
          ruleClaims d claimed lines ++
            (runRules cat lines ds
              (claimed ++ ruleClaims d claimed lines)).1.map Prod.fst := by
        simp only [runRules, List.map_append, List.map_map]
        congr 1
        exact List.map_id _
      obtain ⟨ihn, ihd⟩ := ih (claimed ++ ruleClaims d claimed lines)
      constructor
      · rw [hkeys]
        refine List.Nodup.append (ruleClaims_nodup d claimed lines hl) ihn ?_
        intro i hi1 hi2
        exact ihd i hi2 (List.mem_append_right claimed hi1)
      · intro i hi
        rw [hkeys] at hi
        rcases List.mem_append.1 hi with hi1 | hi2
        · intro hic
          exact ruleClaims_disjoint_claimed d claimed lines i hic hi1
        · intro hic
          exact ihd i hi2 (List.mem_append_left _ hic)

/-- Claim C5: across one whole evaluation, every cart line is allocated by
at most one rule (the claim-index list over all rules is duplicate-free,
because each rule's benefit pool excludes lines claimed by earlier rules),
and a rule with a finite cap never claims more than
`groups × capPerGroup` lines. -/
theorem lines_claimed_once_and_cap_bound (cat : Catalog)
    (rules : List Discount) (lines : List Line) :
    (((runRules cat (indexed lines) rules []).1.map Prod.fst).Nodup) ∧
    (∀ d claimed i, i ∈ claimed →
      i ∉ ruleClaims d claimed (indexed lines)) ∧
    (∀ d (claimed : List Nat) (c : Int),
      d.benefit_only_apply_to_cheapest_n_matches = some c →
      (ruleClaims d claimed (indexed lines)).length ≤
        ruleGroups d (indexed lines) * c.toNat) := by
  refine ⟨?_, ?_, ?_⟩
  · have hl : ((indexed lines).map Prod.fst).Nodup := by
      simp only [indexed, List.enum_map_fst]
      exact List.nodup_range _
    exact (runRules_claims_nodup cat (indexed lines) hl rules []).1
  · intro d claimed i hic
    exact ruleClaims_disjoint_claimed d claimed (indexed lines) i hic
  · intro d claimed c hcap
    simp only [ruleClaims, List.length_map, List.length_take, hcap,
      claimCount]
    omega

/-- Witness for C5 on the repository's two-rule situation: the "every 2
Regular → half-price Reduced" rule followed by the "every 5 Regular → one
free" rule over a mixed cart. -/
theorem lines_claimed_once_and_cap_bound_witness :
    ((((runRules ticketsCatalog
        (indexed (List.replicate 5 regularTicket ++ [reducedTicket]))
        [everyTwoRegularHalfOffReduced, everyFiveRegularOneFree] []).1.map
          Prod.fst).Nodup) ∧
    (∀ d claimed i, i ∈ claimed →
      i ∉ ruleClaims d claimed
        (indexed (List.replicate 5 regularTicket ++ [reducedTicket]))) ∧
    (∀ d (claimed : List Nat) (c : Int),
      d.benefit_only_apply_to_cheapest_n_matches = some c →
      (ruleClaims d claimed
          (indexed (List.replicate 5 regularTicket ++
            [reducedTicket]))).length ≤
        ruleGroups d (indexed (List.replicate 5 regularTicket ++
          [reducedTicket])) * c.toNat)) :=
  lines_claimed_once_and_cap_bound ticketsCatalog
    [everyTwoRegularHalfOffReduced, everyFiveRegularOneFree]
    (List.replicate 5 regularTicket ++ [reducedTicket])

end CrossSelling

namespace CrossSelling

/-- Every entry of an index-tagged replicated cart has the replicated line
as payload and an index at or above the start offset. -/
theorem mem_enumFrom_replicate {l : Line} {x : Nat × Line} :
    ∀ {n s : Nat}, x ∈ List.enumFrom s (List.replicate n l) →
      s ≤ x.1 ∧ x.2 = l := by
  intro n
  induction n with
  | zero => intro s h; simp at h
  | succ n ih =>
      intro s h
      rw [List.replicate_succ, List.enumFrom_cons] at h
      rcases List.mem_cons.1 h with rfl | h2
      · exact ⟨Nat.le_refl s, rfl⟩
      · obtain ⟨h1, h2'⟩ := ih h2
        exact ⟨by omega, h2'⟩

/-- Inserting an element that sorts after everything appends it at the
end. -/
theorem orderedInsert_eq_append (a : Nat × Line) :
    ∀ lst : List (Nat × Line), (∀ x ∈ lst, ¬ cheaperFirst a x) →
      lst.orderedInsert cheaperFirst a = lst ++ [a] := by
  intro lst
  induction lst with
  | nil => intro _; rfl
  | cons b t ih =>
      intro h
      rw [List.orderedInsert, if_neg (h b (List.mem_cons_self b t)),
        ih fun x hx => h x (List.mem_cons_of_mem b hx)]
      rfl

/-- Cheapest-first sorting of an index-tagged cart of identical lines
reverses it: all prices are equal, and the tie-break prefers the later
cart position. -/
theorem insertionSort_enumFrom_replicate (l : Line) :
    ∀ (n s : Nat), List.insertionSort cheaperFirst
        (List.enumFrom s (List.replicate n l)) =
      (List.enumFrom s (List.replicate n l)).reverse := by
  intro n
  induction n with
  | zero => intro s; rfl
  | succ n ih =>
      intro s
      rw [List.replicate_succ, List.enumFrom_cons, List.insertionSort,
        ih (s + 1), orderedInsert_eq_append, List.reverse_cons]
      intro x hx
      rw [List.mem_reverse] at hx
      obtain ⟨h1, h2⟩ := mem_enumFrom_replicate hx
      intro hcf
      rcases hcf with hlt | ⟨heq, hle⟩
      · rw [h2] at hlt
        exact lt_irrefl _ hlt
      · exact absurd hle (by omega)

/-- Looking an index up in a constant-valued claim list succeeds exactly
on its members. -/
theorem lookup_map_const (v : Int) (i : Nat) :
    ∀ cl : List Nat, (cl.map fun j => (j, v)).lookup i =
      if i ∈ cl then some v else none := by
  intro cl
  induction cl with
  | nil => rfl
  | cons j t ih =>
      by_cases hij : i = j
      · subst hij
        simp [List.lookup]
      · simp only [List.map_cons, List.lookup,
          beq_eq_false_iff_ne.2 hij, ih]
        simp [List.mem_cons, hij]

end CrossSelling

namespace CrossSelling

/-- A same-product rule "for every `k` of product `pr`, get a `pct`
discount on the cheapest 1 of them" (the shape of
`test_five_tickets_one_free`). -/
def everyKSameOneCheapest (pr : Nat) (k : Nat) (pct : Int) : Discount :=
  { condition_all_products := false
    condition_limit_products := [pr]
    condition_min_count := (k : Int)
    benefit_same_products := true
    benefit_discount_matching_percent := pct
    benefit_only_apply_to_cheapest_n_matches := some 1 }

/-- Over a cart of `n` identical lines, the "every `k` → 1 cheapest" rule
claims exactly the last `n / k` cart positions, in descending order. -/
theorem ruleClaims_replicate (l : Line) (pct : Int) (n k : Nat) :
    ruleClaims (everyKSameOneCheapest l.product k pct) []
        (indexed (List.replicate n l)) =
      (List.range (n / k)).map fun j => n - 1 - j := by
  have hlen : (indexed (List.replicate n l)).length = n := by
    simp [indexed]
  have hben : benefitPool (everyKSameOneCheapest l.product k pct) []
      (indexed (List.replicate n l)) = indexed (List.replicate n l) := by
    unfold benefitPool poolFilter
    rw [List.filter_eq_self.2, List.filter_eq_self.2]
    · intro x hx
      have h2 : x.2 = l := (mem_enumFrom_replicate hx).2
      simp [inScope, benefitScopeAll, benefitScopeList,
        everyKSameOneCheapest, h2]
    · intro x hx
      simp
  have hcond : conditionPool (everyKSameOneCheapest l.product k pct)
      (indexed (List.replicate n l)) = indexed (List.replicate n l) := by
    unfold conditionPool poolFilter
    rw [List.filter_eq_self.2]
    intro x hx
    have h2 : x.2 = l := (mem_enumFrom_replicate hx).2
    simp [inScope, everyKSameOneCheapest, h2]
  have hg : ruleGroups (everyKSameOneCheapest l.product k pct)
      (indexed (List.replicate n l)) = n / k := by
    unfold ruleGroups
    rw [hcond]
    rcases Nat.eq_zero_or_pos k with rfl | hk
    · simp [matchGroups, everyKSameOneCheapest]
    · have hk' : (0 : Int) < ((k : Nat) : Int) := by exact_mod_cast hk
      have hkt : (((k : Nat) : Int)).toNat = k := by omega
      simp only [matchGroups, everyKSameOneCheapest, if_pos hk', hkt, hlen]
  have hsort : sortPool (indexed (List.replicate n l)) =
      (indexed (List.replicate n l)).reverse :=
    insertionSort_enumFrom_replicate l n 0
  have hcap : claimCount (n / k)
      (everyKSameOneCheapest l.product k pct
        ).benefit_only_apply_to_cheapest_n_matches
      (indexed (List.replicate n l)).length = n / k := by
    simp only [everyKSameOneCheapest, claimCount, hlen, Int.toNat_one,
      Nat.mul_one]
    exact Nat.min_eq_left (Nat.div_le_self n k)
  have hfst : (indexed (List.replicate n l)).map Prod.fst =
      List.range n := by
    have h0 : (List.enumFrom 0 (List.replicate n l)).map Prod.fst =
        List.range' 0 (List.replicate n l).length :=
      List.enumFrom_map_fst 0 (List.replicate n l)
    simp only [List.length_replicate] at h0
    rw [indexed, List.enum, h0, List.range_eq_range']
  unfold ruleClaims
  simp only [hben, hg, hcap, hsort]
  have hfun : (fun il : Nat × Line => il.1) = Prod.fst := rfl
  rw [hfun, List.map_take, List.map_reverse, hfst, List.range_eq_range',
    List.reverse_range', ← List.map_take, List.take_range,
    Nat.min_eq_left (Nat.div_le_self n k)]
  simp

/-- Claim C9: when all benefit-eligible lines have equal price, the
allocator discounts the lines at the highest (last) cart positions: for a
same-product rule "every `k` → `pct` off the cheapest 1" over `n`
identical lines, exactly the final `n / k` positions of the output price
array are discounted and every earlier position keeps its original
price — in particular with `k = 5` and `n ∈ {5, 7}` exactly the final
position becomes 0.00 when the discount is 100%. -/
theorem equal_price_allocates_last_positions (cat : Catalog) (l : Line)
    (pct : Int) (n k : Nat) :
    evaluate cat [everyKSameOneCheapest l.product k pct]
        (List.replicate n l) =
      .ok (List.replicate (n - n / k) l.price ++
        List.replicate (n / k) (discountedPrice pct l.price), []) := by
  have hgn : n / k ≤ n := Nat.div_le_self n k
  have hval : ([everyKSameOneCheapest l.product k pct]).all ruleValid
      = true := by
    simp [ruleValid, everyKSameOneCheapest, Int.natCast_nonneg]
  have hrun2 : (runRules cat (indexed (List.replicate n l))
      [everyKSameOneCheapest l.product k pct] []).2 = [] := by
    simp [runRules, ruleRecs, everyKSameOneCheapest]
  have hrun1 : (runRules cat (indexed (List.replicate n l))
      [everyKSameOneCheapest l.product k pct] []).1 =
      ((List.range (n / k)).map fun j => n - 1 - j).map
        fun i => (i, pct) := by
    simp only [runRules, List.append_nil, ruleClaims_replicate]
    simp [everyKSameOneCheapest]
  have hfirst : (indexed (List.replicate n l)).map
      (fun p => applyClaims
        (((List.range (n / k)).map fun j => n - 1 - j).map
          fun i => (i, pct)) p.1 p.2) =
      List.replicate (n - n / k) l.price ++
        List.replicate (n / k) (discountedPrice pct l.price) := by
    apply List.ext_getElem
    · simp [indexed]
      omega
    · intro i h1 h2
      have hin : i < n := by
        simpa [indexed] using h1
      have hie : i < (indexed (List.replicate n l)).length := by
        simpa [indexed] using hin
      rw [List.getElem_map]
      have he : (indexed (List.replicate n l))[i] = (i, l) := by
        have h3 := List.getElem_enumFrom (List.replicate n l) 0 i
          (by simpa [indexed] using hin)
        simp only [Nat.zero_add] at h3
        simp only [indexed, List.enum]
        rw [h3]
        congr 1
        exact List.getElem_replicate _ _
      rw [he]
      unfold applyClaims
      rw [lookup_map_const]
      by_cases hc : n - n / k ≤ i
      · have hmem : i ∈ (List.range (n / k)).map fun j => n - 1 - j := by
          refine List.mem_map.2 ⟨n - 1 - i, List.mem_range.2 (by omega),
            by omega⟩
        rw [if_pos hmem]
        show discountedPrice pct l.price = _
        rw [List.getElem_append_right (by simpa using hc)]
        exact (List.getElem_replicate _ _).symm
      · have hmem : i ∉ (List.range (n / k)).map fun j => n - 1 - j := by
          intro hmem
          obtain ⟨j, hj, hji⟩ := List.mem_map.1 hmem
          rw [List.mem_range] at hj
          omega
        rw [if_neg hmem]
        show l.price = _
        rw [List.getElem_append_left (by simpa using (by omega :
          i < n - n / k))]
        exact (List.getElem_replicate _ _).symm
  unfold evaluate
  rw [if_pos hval]
  show Except.ok ((indexed (List.replicate n l)).map
      (fun p => applyClaims (runRules cat (indexed (List.replicate n l))
        [everyKSameOneCheapest l.product k pct] []).1 p.1 p.2),
      (runRules cat (indexed (List.replicate n l))
        [everyKSameOneCheapest l.product k pct] []).2) = _
  rw [hrun1, hrun2, hfirst]

end CrossSelling
